import Mathlib

/-!
Verification of the chess rules-engine core (`chess_engine/engine`).

The development shallowly embeds the Python source:

* `position.py` — `ChessFile`, `PiecePosition`, the linear position-number
  conversions, and the directional move generators;
* `pieces.py` / `abstract.py` — the piece kinds, `MoveInfo`, and the
  per-kind `get_moves` / `get_attacks` algorithms;
* `board.py` — the `Board` grid, `setup_initial_positions`, `get_piece_at`,
  `move_piece`, `all_pieces`.

Python objects are mutable and aliased: `Board._grid` maps position numbers to
piece *references*, and `kill()` / `move()` mutate the referenced object.  The
embedding makes the object store explicit: a `Board` carries a `heap` (the list
of piece objects, indexed by allocation order) and a `grid` (an association
list from position number to heap index with Python-dict semantics: unique
keys, in-place update, append for fresh keys).  Machine integers are embedded
as `Int` where the Python value can be an arbitrary int (conversion inputs,
offsets) and as `Nat` where the source guarantees 1..8 at construction.
-/

/-- Embeds `PiecePositionError` of `position.py`.  The Python class carries a
message string; each raise site becomes one constructor. -/
inductive PiecePositionError where
  /-- message: piece row must be between 1 and 8 inclusive. (row setter) -/
  | invalidRow
  /-- message: piece row index must be between and equal 1 and 8 -/
  | invalidRowIndex
  /-- message: piece column index must be between and equal 1 and 8 -/
  | invalidColumnIndex
  /-- message: piece position number must be between and equal 1 and 64 -/
  | invalidPositionNumber
deriving DecidableEq

/-- Embeds `ChessFileError` of `position.py`; a distinct exception class from
`PiecePositionError`.  One constructor per raise site of `ChessFile.__init__`
(the third raise, for a value that is neither `str` nor `int`, is unreachable
in the embedding because `ChessFileInput` is a closed sum). -/
inductive ChessFileError where
  /-- message: Invalid file letter. Must be between a and h. -/
  | invalidLetter
  /-- message: Invalid file number. Must be between 1 and 8. -/
  | invalidNumber
deriving DecidableEq

/-- The argument of `ChessFile.__init__`: Python `str | int`.  A Python string
is embedded as its list of characters. -/
inductive ChessFileInput where
  | ofStr (s : List Char)
  | ofInt (n : Int)

/-- The class attribute `ChessFile._letters = "abcdefgh"`. -/
def chessLetters : List Char := ['a', 'b', 'c', 'd', 'e', 'f', 'g', 'h']

/-- Python `needle in hay` for strings: `needle` occurs as a contiguous
substring of `hay` (the empty string always occurs). -/
def pyStrContains (hay needle : List Char) : Bool :=
  (List.range (hay.length + 1)).any (fun i => needle.isPrefixOf (hay.drop i))

/-- Python `hay.index(needle)` for strings: the smallest index at which
`needle` occurs.  The source only calls it after a successful membership
test, so the default 0 for an absent needle is never observed. -/
def pyStrIndex (hay needle : List Char) : Nat :=
  ((List.range (hay.length + 1)).filter (fun i => needle.isPrefixOf (hay.drop i))).headD 0

/-- Embeds the `ChessFile` class: after construction only the validated
`index` attribute matters. -/
structure ChessFile where
  index : Nat
deriving DecidableEq

/-- Embeds `ChessFile.__init__`.  The string branch lowercases the value,
rejects it when `value not in self._letters` (Python substring containment!),
and otherwise stores `self._letters.index(value) + 1`.  The int branch
rejects values outside `START_ROW_COL_INDEX..END_ROW_COL_INDEX` = 1..8. -/
def ChessFile.init : ChessFileInput → Except ChessFileError ChessFile
  | .ofStr s =>
    let value := s.map Char.toLower
    if pyStrContains chessLetters value = false then
      .error .invalidLetter
    else
      .ok ⟨pyStrIndex chessLetters value + 1⟩
  | .ofInt n =>
    if ¬ (1 ≤ n ∧ n ≤ 8) then
      .error .invalidNumber
    else
      .ok ⟨n.toNat⟩

/-- Embeds the `PiecePosition` class.  The Python object stores a validated
row (1..8) and a `ChessFile` column; the column is represented by its
validated index `column.number` (1..8), which is the only part of `ChessFile`
the rest of the engine reads. -/
structure PiecePosition where
  row : Nat
  column : Nat
deriving DecidableEq

/-- The constructor invariant of `PiecePosition`: the row and column setters
only accept values in 1..8, so every Python `PiecePosition` object satisfies
this predicate. -/
def PiecePosition.valid (p : PiecePosition) : Prop :=
  1 ≤ p.row ∧ p.row ≤ 8 ∧ 1 ≤ p.column ∧ p.column ≤ 8

instance (p : PiecePosition) : Decidable p.valid := by
  unfold PiecePosition.valid; infer_instance

/-- Embeds `PiecePosition.__init__` (row setter, then column setter).  The row
setter raises `PiecePositionError` for a row outside 1..8; the column setter
builds a `ChessFile`, letting any `ChessFileError` propagate. -/
def PiecePosition.init (row : Int) (column : ChessFileInput) :
    Except (PiecePositionError ⊕ ChessFileError) PiecePosition :=
  if ¬ (1 ≤ row ∧ row ≤ 8) then
    .error (.inl .invalidRow)
  else
    match ChessFile.init column with
    | .error e => .error (.inr e)
    | .ok f => .ok ⟨row.toNat, f.index⟩

/-- Embeds the static method `PiecePosition.validate_axis`. -/
def PiecePosition.validate_axis (value : Int) : Bool :=
  decide (1 ≤ value ∧ value ≤ 8)

/-- Embeds the static method `PiecePosition.validate_position_number`. -/
def PiecePosition.validate_position_number (value : Int) : Bool :=
  decide (1 ≤ value ∧ value ≤ 64)

/-- Embeds the static method
`PiecePosition.convert_row_column_to_position_number`: validates both axes,
then returns `(row - 1) * 8 + column`. -/
def PiecePosition.convert_row_column_to_position_number (row column : Int) :
    Except PiecePositionError Int :=
  if PiecePosition.validate_axis row = false then
    .error .invalidRowIndex
  else if PiecePosition.validate_axis column = false then
    .error .invalidColumnIndex
  else
    .ok ((row - 1) * 8 + column)

/-- Embeds the static method
`PiecePosition.convert_position_number_to_row_column`: validates the position
number, then returns `((n-1) // 8 + 1, (n-1) % 8 + 1)`.  Python `//` and `%`
are floor division and modulo; Lean `Int` `/` and `%` here are Euclidean
division and modulo, which agree with floor semantics for the positive
divisor 8. -/
def PiecePosition.convert_position_number_to_row_column (position_number : Int) :
    Except PiecePositionError (Int × Int) :=
  if PiecePosition.validate_position_number position_number = false then
    .error .invalidPositionNumber
  else
    .ok ((position_number - 1) / 8 + 1, (position_number - 1) % 8 + 1)

/-- The position number of a valid position, as a closed formula.  For every
constructible `PiecePosition` (rows and columns validated to 1..8 by the
setters) the validating conversion returns exactly this value; see
`get_position_number_eq_of_valid`. -/
def PiecePosition.pos_num (p : PiecePosition) : Int :=
  ((p.row : Int) - 1) * 8 + (p.column : Int)

/-- Embeds the method `PiecePosition.get_position_number`, which calls the
validating static conversion on `(self.row, self.column.number)`. -/
def PiecePosition.get_position_number (p : PiecePosition) :
    Except PiecePositionError Int :=
  PiecePosition.convert_row_column_to_position_number (p.row : Int) (p.column : Int)

theorem get_position_number_eq_of_valid (p : PiecePosition) (h : p.valid) :
    p.get_position_number = .ok p.pos_num := by
  obtain ⟨h1, h2, h3, h4⟩ := h
  unfold PiecePosition.get_position_number
    PiecePosition.convert_row_column_to_position_number PiecePosition.pos_num
  have hr : PiecePosition.validate_axis (p.row : Int) = true := by
    unfold PiecePosition.validate_axis
    simp only [decide_eq_true_eq]
    omega
  have hc : PiecePosition.validate_axis (p.column : Int) = true := by
    unfold PiecePosition.validate_axis
    simp only [decide_eq_true_eq]
    omega
  rw [hr, hc]
  simp

theorem valid_of_get_position_number_ok (p : PiecePosition) (n : Int)
    (h : p.get_position_number = .ok n) : p.valid ∧ n = p.pos_num := by
  unfold PiecePosition.get_position_number
    PiecePosition.convert_row_column_to_position_number at h
  by_cases hr : PiecePosition.validate_axis (p.row : Int) = false
  · rw [hr] at h; simp at h
  · rw [Bool.not_eq_false] at hr
    rw [hr] at h
    by_cases hc : PiecePosition.validate_axis (p.column : Int) = false
    · simp only [Bool.true_eq_false, if_false] at h
      rw [hc] at h; simp at h
    · rw [Bool.not_eq_false] at hc
      simp only [Bool.true_eq_false, if_false, hc] at h
      unfold PiecePosition.validate_axis at hr hc
      simp only [decide_eq_true_eq] at hr hc
      simp only [Except.ok.injEq] at h
      refine ⟨⟨by omega, by omega, by omega, by omega⟩, ?_⟩
      unfold PiecePosition.pos_num
      omega

/-- C5: for every row and column in 1..8 the conversion to a position number
succeeds, lands in 1..64, converts back to the original pair, is unique for
that pair among all valid pairs, and every number in 1..64 is hit by some
valid pair — the mapping `(row-1)*8 + column` is a bijection from the 8×8
coordinate domain onto 1..64. -/
theorem position_number_round_trip (row column : Int)
    (hrow : 1 ≤ row ∧ row ≤ 8) (hcol : 1 ≤ column ∧ column ≤ 8) :
    ∃ n, PiecePosition.convert_row_column_to_position_number row column = .ok n ∧
      1 ≤ n ∧ n ≤ 64 ∧
      PiecePosition.convert_position_number_to_row_column n = .ok (row, column) ∧
      (∀ r c, 1 ≤ r → r ≤ 8 → 1 ≤ c → c ≤ 8 →
        PiecePosition.convert_row_column_to_position_number r c = .ok n →
        r = row ∧ c = column) ∧
      (∀ m, 1 ≤ m → m ≤ 64 → ∃ r c, 1 ≤ r ∧ r ≤ 8 ∧ 1 ≤ c ∧ c ≤ 8 ∧
        PiecePosition.convert_row_column_to_position_number r c = .ok m) := by
  have axis_true : ∀ v : Int, 1 ≤ v → v ≤ 8 → PiecePosition.validate_axis v = true := by
    intro v h1 h2
    unfold PiecePosition.validate_axis
    simp only [decide_eq_true_eq]
    omega
  have conv_ok : ∀ r c : Int, 1 ≤ r → r ≤ 8 → 1 ≤ c → c ≤ 8 →
      PiecePosition.convert_row_column_to_position_number r c = .ok ((r - 1) * 8 + c) := by
    intro r c h1 h2 h3 h4
    unfold PiecePosition.convert_row_column_to_position_number
    rw [axis_true r h1 h2, axis_true c h3 h4]
    simp
  refine ⟨(row - 1) * 8 + column,
    conv_ok row column hrow.1 hrow.2 hcol.1 hcol.2, by omega, by omega, ?_, ?_, ?_⟩
  · unfold PiecePosition.convert_position_number_to_row_column
      PiecePosition.validate_position_number
    have hv : decide (1 ≤ (row - 1) * 8 + column ∧ (row - 1) * 8 + column ≤ 64) = true := by
      simp only [decide_eq_true_eq]
      omega
    rw [hv]
    simp only [Bool.true_eq_false, if_false, Except.ok.injEq, Prod.mk.injEq]
    omega
  · intro r c h1 h2 h3 h4 h
    rw [conv_ok r c h1 h2 h3 h4] at h
    simp only [Except.ok.injEq] at h
    omega
  · intro m hm1 hm2
    refine ⟨(m - 1) / 8 + 1, (m - 1) % 8 + 1,
      by omega, by omega, by omega, by omega, ?_⟩
    rw [conv_ok ((m - 1) / 8 + 1) ((m - 1) % 8 + 1)
      (by omega) (by omega) (by omega) (by omega)]
    simp only [Except.ok.injEq]
    omega

/-- Witness for C5 at the concrete pair (3, 5). -/
theorem position_number_round_trip_witness :
    ∃ n, PiecePosition.convert_row_column_to_position_number 3 5 = .ok n ∧
      1 ≤ n ∧ n ≤ 64 ∧
      PiecePosition.convert_position_number_to_row_column n = .ok (3, 5) ∧
      (∀ r c, 1 ≤ r → r ≤ 8 → 1 ≤ c → c ≤ 8 →
        PiecePosition.convert_row_column_to_position_number r c = .ok n →
        r = 3 ∧ c = 5) ∧
      (∀ m, 1 ≤ m → m ≤ 64 → ∃ r c, 1 ≤ r ∧ r ≤ 8 ∧ 1 ≤ c ∧ c ≤ 8 ∧
        PiecePosition.convert_row_column_to_position_number r c = .ok m) :=
  position_number_round_trip 3 5 (by omega) (by omega)

/-- C7: the column validation of `ChessFile.__init__` does not reject every
value that is neither a single letter a–h nor an integer in 1..8.  Python
`value not in self._letters` is a substring test, so the two-character string
ab is accepted and silently becomes file index 1 (file a), while its
reversal ba — not a substring — is rejected.  The class docstring promises a
`ChessFileError` for any value that is not a valid letter or number, so this
is a slip in the code, not in the specification. -/
theorem chess_file_accepts_substring :
    ChessFile.init (.ofStr ['a', 'b']) = .ok ⟨1⟩ ∧
    ChessFile.init (.ofStr ['b', 'a']) = .error .invalidLetter := by
  constructor
  · rfl
  · rfl

/-- Embeds the generator `PiecePosition.move_up`: `for r in range(pos.row + 1, 9)`
yields `cls(r, pos.column.number)`; materialized as the list of its yields. -/
def PiecePosition.move_up (pos : PiecePosition) : List PiecePosition :=
  (List.range (8 - pos.row)).map (fun i => { row := pos.row + 1 + i, column := pos.column })

/-- Embeds `PiecePosition.move_down`: `for r in range(pos.row - 1, 0, -1)`. -/
def PiecePosition.move_down (pos : PiecePosition) : List PiecePosition :=
  (List.range (pos.row - 1)).map (fun i => { row := pos.row - 1 - i, column := pos.column })

/-- Embeds `PiecePosition.move_right`: `for c in range(pos.column.number + 1, 9)`. -/
def PiecePosition.move_right (pos : PiecePosition) : List PiecePosition :=
  (List.range (8 - pos.column)).map (fun i => { row := pos.row, column := pos.column + 1 + i })

/-- Embeds `PiecePosition.move_left`: `for c in range(pos.column.number - 1, 0, -1)`. -/
def PiecePosition.move_left (pos : PiecePosition) : List PiecePosition :=
  (List.range (pos.column - 1)).map (fun i => { row := pos.row, column := pos.column - 1 - i })

/-- The while loop of `PiecePosition.move_up_right`:
`while r <= END and c <= END: yield cls(r, c); r += 1; c += 1`. -/
def upRightFrom (r c : Nat) : List PiecePosition :=
  if h : r ≤ 8 ∧ c ≤ 8 then { row := r, column := c } :: upRightFrom (r + 1) (c + 1) else []
termination_by 9 - r
decreasing_by omega

/-- Embeds `PiecePosition.move_up_right`, starting at `(row + 1, column + 1)`. -/
def PiecePosition.move_up_right (pos : PiecePosition) : List PiecePosition :=
  upRightFrom (pos.row + 1) (pos.column + 1)

/-- The while loop of `PiecePosition.move_up_left`:
`while r <= END and c >= START: yield cls(r, c); r += 1; c -= 1`. -/
def upLeftFrom (r c : Nat) : List PiecePosition :=
  if h : r ≤ 8 ∧ 1 ≤ c then { row := r, column := c } :: upLeftFrom (r + 1) (c - 1) else []
termination_by 9 - r
decreasing_by omega

/-- Embeds `PiecePosition.move_up_left`, starting at `(row + 1, column - 1)`.
A Python start column of 0 (piece on file a) fails the loop guard at once;
the Nat start value 0 does the same. -/
def PiecePosition.move_up_left (pos : PiecePosition) : List PiecePosition :=
  upLeftFrom (pos.row + 1) (pos.column - 1)

/-- The while loop of `PiecePosition.move_down_right`:
`while r >= START and c <= END: yield cls(r, c); r -= 1; c += 1`. -/
def downRightFrom (r c : Nat) : List PiecePosition :=
  if h : 1 ≤ r ∧ c ≤ 8 then { row := r, column := c } :: downRightFrom (r - 1) (c + 1) else []
termination_by r
decreasing_by omega

/-- Embeds `PiecePosition.move_down_right`, starting at `(row - 1, column + 1)`. -/
def PiecePosition.move_down_right (pos : PiecePosition) : List PiecePosition :=
  downRightFrom (pos.row - 1) (pos.column + 1)

/-- The while loop of `PiecePosition.move_down_left`:
`while r >= START and c >= START: yield cls(r, c); r -= 1; c -= 1`. -/
def downLeftFrom (r c : Nat) : List PiecePosition :=
  if h : 1 ≤ r ∧ 1 ≤ c then { row := r, column := c } :: downLeftFrom (r - 1) (c - 1) else []
termination_by r
decreasing_by omega

/-- Embeds `PiecePosition.move_down_left`, starting at `(row - 1, column - 1)`. -/
def PiecePosition.move_down_left (pos : PiecePosition) : List PiecePosition :=
  downLeftFrom (pos.row - 1) (pos.column - 1)

/-- Embeds the classmethod `PiecePosition.offset`: shift the row by `dr` and
the column by `dc`; if both stay within 1..8 build the shifted position
(whose constructor validation then succeeds), otherwise return `None`.  It is
total: an off-board offset is an expected outcome, not an error. -/
def PiecePosition.offset (pos : PiecePosition) (off : Int × Int) : Option PiecePosition :=
  let new_row : Int := (pos.row : Int) + off.1
  let new_col : Int := (pos.column : Int) + off.2
  if 1 ≤ new_row ∧ new_row ≤ 8 ∧ 1 ≤ new_col ∧ new_col ≤ 8 then
    some { row := new_row.toNat, column := new_col.toNat }
  else
    none

/-- Embeds `PieceName` of `pieces.py`. -/
inductive PieceName where
  | pawn
  | rook
  | knight
  | bishop
  | queen
  | king
deriving DecidableEq

/-- Embeds `ColorName` of `color.py`. -/
inductive ColorName where
  | white
  | black
deriving DecidableEq

/-- Embeds a `Piece` object (`abstract.py`).  The class hierarchy becomes the
`kind` tag with exhaustive dispatch; `_is_die` and `_has_moved` are the
one-way flags mutated only by `kill()` and `move()`. -/
structure Piece where
  kind : PieceName
  color : ColorName
  position : PiecePosition
  is_die : Bool
  has_moved : Bool
deriving DecidableEq

/-- Embeds `Piece.kill`: marks the piece as captured. -/
def Piece.kill (p : Piece) : Piece := { p with is_die := true }

/-- Embeds `Piece.move`: marks the piece as having moved. -/
def Piece.move (p : Piece) : Piece := { p with has_moved := true }

/-- Embeds `MoveInfo` (`abstract.py`): origin, the grouped destination rays,
and the `is_attack` flag whose pydantic default is `False`. -/
structure MoveInfo where
  from_pos : PiecePosition
  to_pos : List (List PiecePosition)
  is_attack : Bool := false
deriving DecidableEq

/-- Embeds `Piece._get_moves_by_directions` (rook, bishop, queen): one ray per
direction generator, each materialized to the board edge; `is_attack` is left
at its default `False`. -/
def Piece.get_moves_by_directions (p : Piece)
    (directions : List (PiecePosition → List PiecePosition)) : MoveInfo :=
  { from_pos := p.position, to_pos := directions.map (fun d => d p.position) }

/-- Embeds `Piece._get_moves_by_offset` (knight, king): for each offset keep
the shifted position as a singleton ray when it is on-board. -/
def Piece.get_moves_by_offset (p : Piece) (offsets : List (Int × Int)) : MoveInfo :=
  { from_pos := p.position,
    to_pos := offsets.filterMap (fun o => (PiecePosition.offset p.position o).map (fun q => [q])) }

/-- Embeds `Pawn.get_moves`: start from `[[]]`, draw at most one square from
the forward generator (up for White, down for Black), and a second one only
when `has_moved` is still false. -/
def Pawn.get_moves (p : Piece) : MoveInfo :=
  let pos_gen := if p.color = ColorName.white then
    PiecePosition.move_up p.position
  else
    PiecePosition.move_down p.position
  let ray : List PiecePosition :=
    match pos_gen[0]? with
    | none => []
    | some pos1 =>
      if p.has_moved then [pos1]
      else
        match pos_gen[1]? with
        | none => [pos1]
        | some pos2 => [pos1, pos2]
  { from_pos := p.position, to_pos := [ray] }

/-- Embeds `Pawn.get_attacks`: `is_attack` is set to `True`; for each forward
diagonal generator (up for White, down for Black) keep the first yield, if
any, as a singleton ray. -/
def Pawn.get_attacks (p : Piece) : MoveInfo :=
  let directions : List (PiecePosition → List PiecePosition) :=
    if p.color = ColorName.white then
      [PiecePosition.move_up_right, PiecePosition.move_up_left]
    else
      [PiecePosition.move_down_right, PiecePosition.move_down_left]
  { from_pos := p.position,
    to_pos := directions.filterMap (fun d => ((d p.position).head?).map (fun q => [q])),
    is_attack := true }

/-- Embeds `Rook.get_moves`: directions up, right, down, left. -/
def Rook.get_moves (p : Piece) : MoveInfo :=
  p.get_moves_by_directions
    [PiecePosition.move_up, PiecePosition.move_right,
     PiecePosition.move_down, PiecePosition.move_left]

/-- Embeds `Rook.get_attacks`: `return self.get_moves()`. -/
def Rook.get_attacks (p : Piece) : MoveInfo := Rook.get_moves p

/-- Embeds `Knight.get_moves`: the eight L-shaped offsets, in source order. -/
def Knight.get_moves (p : Piece) : MoveInfo :=
  p.get_moves_by_offset
    [(2, 1), (1, 2), (-1, 2), (-2, 1), (-2, -1), (-1, -2), (1, -2), (2, -1)]

/-- Embeds `Knight.get_attacks`: `return self.get_moves()`. -/
def Knight.get_attacks (p : Piece) : MoveInfo := Knight.get_moves p

/-- Embeds `Bishop.get_moves`: directions up-right, down-right, down-left,
up-left. -/
def Bishop.get_moves (p : Piece) : MoveInfo :=
  p.get_moves_by_directions
    [PiecePosition.move_up_right, PiecePosition.move_down_right,
     PiecePosition.move_down_left, PiecePosition.move_up_left]

/-- Embeds `Bishop.get_attacks`: `return self.get_moves()`. -/
def Bishop.get_attacks (p : Piece) : MoveInfo := Bishop.get_moves p

/-- Embeds `Queen.get_moves`: the eight directions in source order. -/
def Queen.get_moves (p : Piece) : MoveInfo :=
  p.get_moves_by_directions
    [PiecePosition.move_up, PiecePosition.move_up_right,
     PiecePosition.move_right, PiecePosition.move_down_right,
     PiecePosition.move_down, PiecePosition.move_down_left,
     PiecePosition.move_left, PiecePosition.move_up_left]

/-- Embeds `Queen.get_attacks`: `return self.get_moves()`. -/
def Queen.get_attacks (p : Piece) : MoveInfo := Queen.get_moves p

/-- Embeds `King.get_moves`: the eight single-square offsets, in source order. -/
def King.get_moves (p : Piece) : MoveInfo :=
  p.get_moves_by_offset
    [(-1, 0), (-1, 1), (0, 1), (1, 1), (1, 0), (1, -1), (0, -1), (-1, -1)]

/-- Embeds `King.get_attacks`: `return self.get_moves()`. -/
def King.get_attacks (p : Piece) : MoveInfo := King.get_moves p

/-- Virtual dispatch of the abstract `Piece.get_moves` over the closed set of
subclasses. -/
def Piece.get_moves (p : Piece) : MoveInfo :=
  match p.kind with
  | .pawn => Pawn.get_moves p
  | .rook => Rook.get_moves p
  | .knight => Knight.get_moves p
  | .bishop => Bishop.get_moves p
  | .queen => Queen.get_moves p
  | .king => King.get_moves p

/-- Virtual dispatch of the abstract `Piece.get_attacks` over the closed set
of subclasses. -/
def Piece.get_attacks (p : Piece) : MoveInfo :=
  match p.kind with
  | .pawn => Pawn.get_attacks p
  | .rook => Rook.get_attacks p
  | .knight => Knight.get_attacks p
  | .bishop => Bishop.get_attacks p
  | .queen => Queen.get_attacks p
  | .king => King.get_attacks p

/-- C3: a Rook at a valid (row, column) produces exactly 4 rays in the fixed
order up, right, down, left, of lengths `8-row`, `8-column`, `row-1`,
`column-1`; the i-th square of each ray lies at distance `i+1` from the
origin in that direction, so each ray enumerates strictly increasing
distances and stops exactly at the board edge (occupancy is never consulted:
the generators read only the origin coordinate). -/
theorem rook_get_moves_rays (p : Piece) (hk : p.kind = PieceName.rook)
    (hr : 1 ≤ p.position.row ∧ p.position.row ≤ 8)
    (hc : 1 ≤ p.position.column ∧ p.position.column ≤ 8) :
    ∃ up_ray right_ray down_ray left_ray,
      p.get_moves.to_pos = [up_ray, right_ray, down_ray, left_ray] ∧
      up_ray.length = 8 - p.position.row ∧
      (∀ i, (h : i < up_ray.length) →
        up_ray[i] = ⟨p.position.row + (i + 1), p.position.column⟩) ∧
      right_ray.length = 8 - p.position.column ∧
      (∀ i, (h : i < right_ray.length) →
        right_ray[i] = ⟨p.position.row, p.position.column + (i + 1)⟩) ∧
      down_ray.length = p.position.row - 1 ∧
      (∀ i, (h : i < down_ray.length) →
        down_ray[i] = ⟨p.position.row - (i + 1), p.position.column⟩) ∧
      left_ray.length = p.position.column - 1 ∧
      (∀ i, (h : i < left_ray.length) →
        left_ray[i] = ⟨p.position.row, p.position.column - (i + 1)⟩) := by
  refine ⟨PiecePosition.move_up p.position, PiecePosition.move_right p.position,
    PiecePosition.move_down p.position, PiecePosition.move_left p.position,
    ?_, ?_, ?_, ?_, ?_, ?_, ?_, ?_, ?_⟩
  · simp [Piece.get_moves, hk, Rook.get_moves, Piece.get_moves_by_directions]
  · simp [PiecePosition.move_up]
  · intro i h
    simp only [PiecePosition.move_up, List.getElem_map, List.getElem_range,
      PiecePosition.mk.injEq, and_true, true_and]
    omega
  · simp [PiecePosition.move_right]
  · intro i h
    simp only [PiecePosition.move_right, List.getElem_map, List.getElem_range,
      PiecePosition.mk.injEq, and_true, true_and]
    omega
  · simp [PiecePosition.move_down]
  · intro i h
    simp only [PiecePosition.move_down, List.getElem_map, List.getElem_range,
      PiecePosition.mk.injEq, and_true, true_and]
    omega
  · simp [PiecePosition.move_left]
  · intro i h
    simp only [PiecePosition.move_left, List.getElem_map, List.getElem_range,
      PiecePosition.mk.injEq, and_true, true_and]
    omega

/-- A White Rook standing on d4 (row 4, column 4). -/
def rookD4 : Piece :=
  { kind := PieceName.rook, color := ColorName.white,
    position := { row := 4, column := 4 }, is_die := false, has_moved := false }

/-- Witness for C3: the Rook at d4 satisfies the general ray theorem, and its
four rays concretely have lengths 4 (up, ending on d8), 4 (right, ending on
h4), 3 (down, ending on d1) and 3 (left, ending on a4). -/
theorem rook_get_moves_rays_witness :
    (rookD4.get_moves.to_pos.map List.length = [4, 4, 3, 3] ∧
     rookD4.get_moves.to_pos.map (fun ray => ray.getLast?) =
       [some ⟨8, 4⟩, some ⟨4, 8⟩, some ⟨1, 4⟩, some ⟨4, 1⟩]) ∧
    (∃ up_ray right_ray down_ray left_ray,
      rookD4.get_moves.to_pos = [up_ray, right_ray, down_ray, left_ray] ∧
      up_ray.length = 8 - rookD4.position.row ∧
      (∀ i, (h : i < up_ray.length) →
        up_ray[i] = ⟨rookD4.position.row + (i + 1), rookD4.position.column⟩) ∧
      right_ray.length = 8 - rookD4.position.column ∧
      (∀ i, (h : i < right_ray.length) →
        right_ray[i] = ⟨rookD4.position.row, rookD4.position.column + (i + 1)⟩) ∧
      down_ray.length = rookD4.position.row - 1 ∧
      (∀ i, (h : i < down_ray.length) →
        down_ray[i] = ⟨rookD4.position.row - (i + 1), rookD4.position.column⟩) ∧
      left_ray.length = rookD4.position.column - 1 ∧
      (∀ i, (h : i < left_ray.length) →
        left_ray[i] = ⟨rookD4.position.row, rookD4.position.column - (i + 1)⟩)) :=
  ⟨by decide, rook_get_moves_rays rookD4 rfl (by decide) (by decide)⟩

/-- C4: a White Pawn on row 2 that has not moved gets a single move-ray with
exactly the two squares one and two steps toward rank 8; after `move()`
records `has_moved = true` the same pawn gets a single move-ray with exactly
the one-step square — the double step is offered only while `has_moved` is
false. -/
theorem white_pawn_start_moves (p : Piece) (hk : p.kind = PieceName.pawn)
    (hc : p.color = ColorName.white) (hrow : p.position.row = 2)
    (hm : p.has_moved = false) :
    p.get_moves.to_pos =
      [[⟨3, p.position.column⟩, ⟨4, p.position.column⟩]] ∧
    (Piece.move p).get_moves.to_pos = [[⟨3, p.position.column⟩]] := by
  constructor
  · simp [Piece.get_moves, hk, Pawn.get_moves, hc, hm, PiecePosition.move_up, hrow,
      List.getElem?_map, List.getElem?_range]
  · simp [Piece.get_moves, Piece.move, hk, Pawn.get_moves, hc, PiecePosition.move_up, hrow,
      List.getElem?_map, List.getElem?_range]

/-- A White Pawn on its start square a2 that has not moved. -/
def pawnA2 : Piece :=
  { kind := PieceName.pawn, color := ColorName.white,
    position := { row := 2, column := 1 }, is_die := false, has_moved := false }

/-- Witness for C4: the pawn on a2. -/
theorem white_pawn_start_moves_witness :
    pawnA2.get_moves.to_pos = [[⟨3, 1⟩, ⟨4, 1⟩]] ∧
    (Piece.move pawnA2).get_moves.to_pos = [[⟨3, 1⟩]] :=
  white_pawn_start_moves pawnA2 rfl rfl rfl rfl

/-- C8: `offset` returns a position exactly when both the shifted row and the
shifted column stay within 1..8, and that position has row `row + dr` and
column `column + dc`; otherwise it returns `None`.  The operation is a total
function into `Option` — an off-board offset is never an error. -/
theorem offset_in_bounds_iff (p : PiecePosition) (dr dc : Int) :
    (1 ≤ (p.row : Int) + dr ∧ (p.row : Int) + dr ≤ 8 ∧
     1 ≤ (p.column : Int) + dc ∧ (p.column : Int) + dc ≤ 8 →
      ∃ q, PiecePosition.offset p (dr, dc) = some q ∧
        (q.row : Int) = (p.row : Int) + dr ∧
        (q.column : Int) = (p.column : Int) + dc) ∧
    (¬ (1 ≤ (p.row : Int) + dr ∧ (p.row : Int) + dr ≤ 8 ∧
        1 ≤ (p.column : Int) + dc ∧ (p.column : Int) + dc ≤ 8) →
      PiecePosition.offset p (dr, dc) = none) := by
  constructor
  · intro h
    simp only [PiecePosition.offset]
    rw [if_pos h]
    refine ⟨_, rfl, ?_, ?_⟩ <;> simp <;> omega
  · intro h
    simp only [PiecePosition.offset]
    rw [if_neg h]

/-- Witness for C8 at d4: the knight-shaped offset (2, 1) stays on-board and
lands on row 6, column 5; the offset (5, 0) runs off the top edge and yields
`None`. -/
theorem offset_in_bounds_iff_witness :
    (∃ q, PiecePosition.offset ⟨4, 4⟩ (2, 1) = some q ∧
      (q.row : Int) = ((4 : Nat) : Int) + 2 ∧
      (q.column : Int) = ((4 : Nat) : Int) + 1) ∧
    PiecePosition.offset ⟨4, 4⟩ (5, 0) = none :=
  ⟨(offset_in_bounds_iff ⟨4, 4⟩ 2 1).1 (by decide),
   (offset_in_bounds_iff ⟨4, 4⟩ 5 0).2 (by decide)⟩

/-- C9: for every non-pawn piece (Rook, Knight, Bishop, Queen, King),
`get_attacks` returns the very `MoveInfo` that `get_moves` returns, and its
`is_attack` flag is the default `False`; only `Pawn.get_attacks` sets
`is_attack` to `True`.  So the flag does not distinguish attack queries from
move queries for non-pawn kinds. -/
theorem get_attacks_eq_get_moves_non_pawn (p : Piece) :
    (p.kind ≠ PieceName.pawn →
      p.get_attacks = p.get_moves ∧ p.get_attacks.is_attack = false) ∧
    (p.kind = PieceName.pawn → p.get_attacks.is_attack = true) := by
  cases hp : p.kind
  case pawn =>
    refine ⟨fun hne => absurd rfl hne, fun _ => ?_⟩
    simp [Piece.get_attacks, hp, Pawn.get_attacks]
  case rook =>
    refine ⟨fun _ => ⟨?_, ?_⟩, fun heq => nomatch heq⟩
    · simp [Piece.get_attacks, Piece.get_moves, hp, Rook.get_attacks]
    · simp [Piece.get_attacks, hp, Rook.get_attacks, Rook.get_moves,
        Piece.get_moves_by_directions]
  case knight =>
    refine ⟨fun _ => ⟨?_, ?_⟩, fun heq => nomatch heq⟩
    · simp [Piece.get_attacks, Piece.get_moves, hp, Knight.get_attacks]
    · simp [Piece.get_attacks, hp, Knight.get_attacks, Knight.get_moves,
        Piece.get_moves_by_offset]
  case bishop =>
    refine ⟨fun _ => ⟨?_, ?_⟩, fun heq => nomatch heq⟩
    · simp [Piece.get_attacks, Piece.get_moves, hp, Bishop.get_attacks]
    · simp [Piece.get_attacks, hp, Bishop.get_attacks, Bishop.get_moves,
        Piece.get_moves_by_directions]
  case queen =>
    refine ⟨fun _ => ⟨?_, ?_⟩, fun heq => nomatch heq⟩
    · simp [Piece.get_attacks, Piece.get_moves, hp, Queen.get_attacks]
    · simp [Piece.get_attacks, hp, Queen.get_attacks, Queen.get_moves,
        Piece.get_moves_by_directions]
  case king =>
    refine ⟨fun _ => ⟨?_, ?_⟩, fun heq => nomatch heq⟩
    · simp [Piece.get_attacks, Piece.get_moves, hp, King.get_attacks]
    · simp [Piece.get_attacks, hp, King.get_attacks, King.get_moves,
        Piece.get_moves_by_offset]

/-- A Black Knight on b8, for the C9 witness. -/
def knightB8 : Piece :=
  { kind := PieceName.knight, color := ColorName.black,
    position := { row := 8, column := 2 }, is_die := false, has_moved := false }

/-- Witness for C9: the knight on b8 and the pawn on a2. -/
theorem get_attacks_eq_get_moves_non_pawn_witness :
    (knightB8.get_attacks = knightB8.get_moves ∧
     knightB8.get_attacks.is_attack = false) ∧
    pawnA2.get_attacks.is_attack = true :=
  ⟨(get_attacks_eq_get_moves_non_pawn knightB8).1 (by decide),
   (get_attacks_eq_get_moves_non_pawn pawnA2).2 rfl⟩

/-- Lookup in a Python dict embedded as an association list:
`grid.get(k)` returns the value of the first (and, keys being unique, only)
entry with key `k`, or `None`. -/
def dictGet (k : Int) : List (Int × Nat) → Option Nat
  | [] => none
  | e :: es => if e.1 = k then some e.2 else dictGet k es

/-- Deletion from a Python dict: `del grid[k]` removes the entry with key `k`
(the source only deletes keys it has just looked up). -/
def dictDel (k : Int) : List (Int × Nat) → List (Int × Nat)
  | [] => []
  | e :: es => if e.1 = k then dictDel k es else e :: dictDel k es

/-- Assignment in a Python dict: `grid[k] = v` replaces the value of an
existing entry in place, keeping its position, and otherwise appends a new
entry at the end (Python dicts preserve insertion order). -/
def dictSet (k : Int) (v : Nat) : List (Int × Nat) → List (Int × Nat)
  | [] => [(k, v)]
  | e :: es => if e.1 = k then (k, v) :: es else e :: dictSet k v es

/-- In-place mutation of one object of the heap: the piece at index `i` is
replaced by `f` of itself; all other indices are untouched. -/
def heapModify (f : Piece → Piece) (i : Nat) : List Piece → List Piece
  | [] => []
  | q :: qs =>
    match i with
    | 0 => f q :: qs
    | j + 1 => q :: heapModify f j qs

theorem dictGet_dictDel (g : List (Int × Nat)) (k k' : Int) :
    dictGet k' (dictDel k g) = if k' = k then none else dictGet k' g := by
  induction g with
  | nil => split_ifs <;> rfl
  | cons e es ih =>
    rw [dictDel]
    by_cases h1 : e.1 = k
    · rw [if_pos h1, ih]
      by_cases h2 : k' = k
      · rw [if_pos h2, if_pos h2]
      · rw [if_neg h2, if_neg h2, dictGet, if_neg (fun hh : e.1 = k' => h2 (hh ▸ h1))]
    · rw [if_neg h1, dictGet, ih, dictGet]
      by_cases h3 : e.1 = k'
      · rw [if_pos h3, if_neg (fun h2 : k' = k => h1 (h3.trans h2)), if_pos h3]
      · rw [if_neg h3, if_neg h3]

theorem dictGet_dictSet (g : List (Int × Nat)) (k k' : Int) (v : Nat) :
    dictGet k' (dictSet k v g) = if k' = k then some v else dictGet k' g := by
  induction g with
  | nil =>
    simp only [dictSet, dictGet]
    by_cases h : k' = k
    · rw [if_pos h.symm, if_pos h]
    · rw [if_neg (fun hh : k = k' => h hh.symm), if_neg h]
  | cons e es ih =>
    rw [dictSet]
    by_cases h1 : e.1 = k
    · rw [if_pos h1, dictGet]
      by_cases h2 : k' = k
      · rw [if_pos (h2.symm), if_pos h2]
      · rw [if_neg (fun hh : k = k' => h2 hh.symm), if_neg h2, dictGet, if_neg (fun hh : e.1 = k' => h2 (hh ▸ h1))]
    · rw [if_neg h1, dictGet, ih, dictGet]
      by_cases h3 : e.1 = k'
      · rw [if_pos h3, if_neg (fun h2 : k' = k => h1 (h3.trans h2)), if_pos h3]
      · rw [if_neg h3, if_neg h3]

theorem mem_of_dictGet (g : List (Int × Nat)) (k : Int) (v : Nat)
    (h : dictGet k g = some v) : (k, v) ∈ g := by
  induction g with
  | nil => simp [dictGet] at h
  | cons e es ih =>
    by_cases h1 : e.1 = k
    · simp only [dictGet, if_pos h1, Option.some.injEq] at h
      exact List.mem_cons.mpr (Or.inl (Prod.ext h1 h).symm)
    · simp only [dictGet, if_neg h1] at h
      exact List.mem_cons_of_mem _ (ih h)

theorem mem_dictDel (g : List (Int × Nat)) (k : Int) (e : Int × Nat)
    (h : e ∈ dictDel k g) : e ∈ g ∧ e.1 ≠ k := by
  induction g with
  | nil => simp [dictDel] at h
  | cons q es ih =>
    by_cases h1 : q.1 = k
    · rw [dictDel, if_pos h1] at h
      have := ih h
      exact ⟨List.mem_cons_of_mem _ this.1, this.2⟩
    · rw [dictDel, if_neg h1] at h
      rcases List.mem_cons.mp h with h2 | h2
      · subst h2
        exact ⟨List.mem_cons_self _ _, h1⟩
      · have := ih h2
        exact ⟨List.mem_cons_of_mem _ this.1, this.2⟩

theorem mem_dictSet (g : List (Int × Nat)) (k : Int) (v : Nat) (e : Int × Nat)
    (hnd : (g.map Prod.fst).Nodup) (h : e ∈ dictSet k v g) :
    e = (k, v) ∨ (e ∈ g ∧ e.1 ≠ k) := by
  induction g with
  | nil => simp [dictSet] at h; left; exact h
  | cons q es ih =>
    rw [List.map_cons, List.nodup_cons] at hnd
    by_cases h1 : q.1 = k
    · rw [dictSet, if_pos h1] at h
      rcases List.mem_cons.mp h with h2 | h2
      · left; exact h2
      · right
        refine ⟨List.mem_cons_of_mem _ h2, ?_⟩
        intro hk
        exact hnd.1 (h1 ▸ hk ▸ List.mem_map_of_mem Prod.fst h2)
    · rw [dictSet, if_neg h1] at h
      rcases List.mem_cons.mp h with h2 | h2
      · subst h2
        right
        exact ⟨List.mem_cons_self _ _, h1⟩
      · rcases ih hnd.2 h2 with h3 | h3
        · left; exact h3
        · right
          exact ⟨List.mem_cons_of_mem _ h3.1, h3.2⟩

theorem mem_keys_dictDel (g : List (Int × Nat)) (k a : Int)
    (h : a ∈ (dictDel k g).map Prod.fst) : a ∈ g.map Prod.fst := by
  induction g with
  | nil => simp [dictDel] at h
  | cons q es ih =>
    by_cases h1 : q.1 = k
    · rw [dictDel, if_pos h1] at h
      exact List.mem_map.mpr (by
        rcases List.mem_map.mp (ih h) with ⟨e, he, rfl⟩
        exact ⟨e, List.mem_cons_of_mem _ he, rfl⟩)
    · rw [dictDel, if_neg h1, List.map_cons] at h
      rcases List.mem_cons.mp h with h2 | h2
      · rw [List.map_cons]
        exact h2 ▸ List.mem_cons_self _ _
      · rw [List.map_cons]
        exact List.mem_cons_of_mem _ (ih h2)

theorem keys_dictDel_nodup (g : List (Int × Nat)) (k : Int)
    (hnd : (g.map Prod.fst).Nodup) : ((dictDel k g).map Prod.fst).Nodup := by
  induction g with
  | nil => simp [dictDel]
  | cons q es ih =>
    rw [List.map_cons, List.nodup_cons] at hnd
    by_cases h1 : q.1 = k
    · rw [dictDel, if_pos h1]
      exact ih hnd.2
    · rw [dictDel, if_neg h1, List.map_cons, List.nodup_cons]
      exact ⟨fun hmem => hnd.1 (mem_keys_dictDel es k q.1 hmem), ih hnd.2⟩

theorem mem_keys_dictSet (g : List (Int × Nat)) (k : Int) (v : Nat) (a : Int)
    (h : a ∈ (dictSet k v g).map Prod.fst) : a = k ∨ a ∈ g.map Prod.fst := by
  induction g with
  | nil => simp [dictSet] at h; left; exact h
  | cons q es ih =>
    by_cases h1 : q.1 = k
    · rw [dictSet, if_pos h1, List.map_cons] at h
      rcases List.mem_cons.mp h with h2 | h2
      · left; exact h2
      · right
        rw [List.map_cons]
        exact List.mem_cons_of_mem _ h2
    · rw [dictSet, if_neg h1, List.map_cons] at h
      rcases List.mem_cons.mp h with h2 | h2
      · right
        rw [List.map_cons]
        exact h2 ▸ List.mem_cons_self _ _
      · rcases ih h2 with h3 | h3
        · left; exact h3
        · right
          rw [List.map_cons]
          exact List.mem_cons_of_mem _ h3

theorem keys_dictSet_nodup (g : List (Int × Nat)) (k : Int) (v : Nat)
    (hnd : (g.map Prod.fst).Nodup) : ((dictSet k v g).map Prod.fst).Nodup := by
  induction g with
  | nil => simp [dictSet]
  | cons q es ih =>
    rw [List.map_cons, List.nodup_cons] at hnd
    by_cases h1 : q.1 = k
    · rw [dictSet, if_pos h1, List.map_cons, List.nodup_cons]
      exact ⟨h1 ▸ hnd.1, hnd.2⟩
    · rw [dictSet, if_neg h1, List.map_cons, List.nodup_cons]
      refine ⟨fun hmem => ?_, ih hnd.2⟩
      rcases mem_keys_dictSet es k v q.1 hmem with h2 | h2
      · exact h1 h2
      · exact hnd.1 h2

theorem heapModify_getElem (f : Piece → Piece) (i j : Nat) (l : List Piece) :
    (heapModify f i l)[j]? = if j = i then (l[j]?).map f else l[j]? := by
  induction l generalizing i j with
  | nil => by_cases h : j = i <;> simp [heapModify, *]
  | cons q qs ih =>
    match i, j with
    | 0, 0 => simp [heapModify]
    | 0, j' + 1 => simp [heapModify]
    | i' + 1, 0 => simp [heapModify]
    | i' + 1, j' + 1 =>
      rw [heapModify]
      rw [List.getElem?_cons_succ, List.getElem?_cons_succ, ih i' j']
      by_cases h : j' = i'
      · rw [if_pos h, if_pos (by omega : j' + 1 = i' + 1)]
      · rw [if_neg h, if_neg (by omega : ¬ j' + 1 = i' + 1)]

/-- Embeds `BoardError` of `board.py` plus the `PiecePositionError` that the
key conversions inside `move_piece` would propagate (never reached for the
validated positions Python can construct). -/
inductive BoardError where
  /-- message: No piece at position `from_pos` -/
  | noPieceAt (position : PiecePosition)
  | positionError (e : PiecePositionError)
deriving DecidableEq

/-- Embeds a `Board` object.  Python's `_grid: Dict[int, Piece]` maps position
numbers to references to mutable `Piece` objects; the embedding splits this
into a `heap` — the list of piece objects in allocation order, mutated in
place by `kill()`/`move()` — and the `grid` association list mapping each
position number to the heap index of the referenced object. -/
structure Board where
  heap : List Piece
  grid : List (Int × Nat)
deriving DecidableEq

/-- Embeds `piece_creator(piece, color, row, column)`: a fresh piece of the
requested kind and color at the validated position, with both one-way flags
false.  The factory's type validation and unknown-kind failure cannot fire
for the closed enums of the embedding. -/
def piece_creator (kind : PieceName) (color : ColorName) (row column : Nat) : Piece :=
  { kind := kind, color := color, position := { row := row, column := column },
    is_die := false, has_moved := false }

/-- The `back_rank` list of `Board.setup_initial_positions`. -/
def back_rank : List PieceName :=
  [.rook, .knight, .bishop, .queen, .king, .bishop, .knight, .rook]

/-- The 32 pieces created by `Board.setup_initial_positions`, in creation
order: per column a White pawn on row 2 then a Black pawn on row 7, then per
back-rank file a White piece on row 1 then a Black piece on row 8. -/
def initial_pieces : List Piece :=
  ((List.range 8).flatMap (fun i =>
    [piece_creator .pawn .white 2 (i + 1), piece_creator .pawn .black 7 (i + 1)])) ++
  ((List.range 8).flatMap (fun i =>
    [piece_creator (back_rank.getD i .rook) .white 1 (i + 1),
     piece_creator (back_rank.getD i .rook) .black 8 (i + 1)]))

/-- Embeds `Board.setup_initial_positions` (and hence `Board.__init__`): the
grid is cleared and each created piece is stored under the position number of
its coordinates — all rows/columns are in 1..8, so the validating conversion
yields exactly `pos_num`. -/
def Board.setup_initial_positions : Board :=
  { heap := initial_pieces,
    grid := initial_pieces.enum.map (fun e => (e.2.position.pos_num, e.1)) }

/-- Embeds `Board.get_piece_at`: `self._grid.get(position.get_position_number())`,
dereferencing the stored object. -/
def Board.get_piece_at (b : Board) (position : PiecePosition) :
    Except PiecePositionError (Option Piece) :=
  match position.get_position_number with
  | .error e => .error e
  | .ok n => .ok ((dictGet n b.grid).bind (fun i => b.heap[i]?))

/-- Embeds `Board.move_piece`: compute both keys, fail with `BoardError` when
no piece sits at `key_from` (before any mutation), otherwise `kill()` the
target object if `key_to` is occupied, delete the `key_from` entry, update the
moving object's `position`, `move()` it, and store it under `key_to`
(overwriting the grid's reference to the target). -/
def Board.move_piece (b : Board) (from_pos to_pos : PiecePosition) :
    Except BoardError Board :=
  match from_pos.get_position_number with
  | .error e => .error (.positionError e)
  | .ok key_from =>
    match to_pos.get_position_number with
    | .error e => .error (.positionError e)
    | .ok key_to =>
      match dictGet key_from b.grid with
      | none => .error (.noPieceAt from_pos)
      | some piece_id =>
        match dictGet key_to b.grid with
        | some target_id =>
          .ok { heap := heapModify (fun pc => Piece.move { pc with position := to_pos })
                  piece_id (heapModify Piece.kill target_id b.heap),
                grid := dictSet key_to piece_id (dictDel key_from b.grid) }
        | none =>
          .ok { heap := heapModify (fun pc => Piece.move { pc with position := to_pos })
                  piece_id b.heap,
                grid := dictSet key_to piece_id (dictDel key_from b.grid) }

/-- Embeds `Board.all_pieces`: `list(self._grid.values())`, dereferencing the
stored objects (every stored index is in range for a well-formed board). -/
def Board.all_pieces (b : Board) : List Piece :=
  b.grid.filterMap (fun e => b.heap[e.2]?)

/-- The board consistency invariant: grid keys are unique (inherent to a
Python dict) and every grid entry with key `n` references an existing piece
whose position converts to exactly `n`. -/
def Board.wf (b : Board) : Prop :=
  (b.grid.map Prod.fst).Nodup ∧
  ∀ e ∈ b.grid, ∃ pc, b.heap[e.2]? = some pc ∧
    pc.position.get_position_number = .ok e.1

/-- Executable form of one entry of the `Board.wf` invariant. -/
def Board.entry_okB (b : Board) (e : Int × Nat) : Bool :=
  match b.heap[e.2]? with
  | none => false
  | some pc =>
    match pc.position.get_position_number with
    | .error _ => false
    | .ok n => n == e.1

/-- Executable form of the `Board.wf` invariant. -/
def Board.wfB (b : Board) : Bool :=
  decide (b.grid.map Prod.fst).Nodup && b.grid.all (fun e => b.entry_okB e)

theorem wf_of_wfB (b : Board) (h : b.wfB = true) : b.wf := by
  unfold Board.wfB at h
  rw [Bool.and_eq_true, decide_eq_true_eq, List.all_eq_true] at h
  refine ⟨h.1, fun e he => ?_⟩
  have h2 := h.2 e he
  unfold Board.entry_okB at h2
  cases hp : b.heap[e.2]? with
  | none => simp only [hp] at h2; exact Bool.noConfusion h2
  | some pc =>
    simp only [hp] at h2
    cases hn : pc.position.get_position_number with
    | error err => simp only [hn] at h2; exact Bool.noConfusion h2
    | ok n =>
      simp only [hn, beq_iff_eq] at h2
      exact ⟨pc, rfl, by rw [hn, h2]⟩

theorem move_piece_capture_eq (b : Board) (fp tp : PiecePosition)
    (kf kt : Int) (pid tid : Nat)
    (hkf : fp.get_position_number = .ok kf) (hkt : tp.get_position_number = .ok kt)
    (hgf : dictGet kf b.grid = some pid) (hgt : dictGet kt b.grid = some tid) :
    b.move_piece fp tp = .ok
      { heap := heapModify (fun pc => Piece.move { pc with position := tp }) pid
          (heapModify Piece.kill tid b.heap),
        grid := dictSet kt pid (dictDel kf b.grid) } := by
  unfold Board.move_piece
  simp only [hkf, hkt, hgf, hgt]

theorem move_piece_plain_eq (b : Board) (fp tp : PiecePosition)
    (kf kt : Int) (pid : Nat)
    (hkf : fp.get_position_number = .ok kf) (hkt : tp.get_position_number = .ok kt)
    (hgf : dictGet kf b.grid = some pid) (hgt : dictGet kt b.grid = none) :
    b.move_piece fp tp = .ok
      { heap := heapModify (fun pc => Piece.move { pc with position := tp }) pid b.heap,
        grid := dictSet kt pid (dictDel kf b.grid) } := by
  unfold Board.move_piece
  simp only [hkf, hkt, hgf, hgt]

/-- C1: when a piece P occupies `from` and a different piece Q occupies `to`
(both valid coordinates), `move_piece(from, to)` succeeds, Q's object is
marked captured by `kill()`, P's object gets position `to` and
`has_moved = true` via `move()`, and afterwards `get_piece_at(to)` returns
the moved P — not Q — while `get_piece_at(from)` returns empty. -/
theorem move_piece_capture_updates_board (b : Board) (from_pos to_pos : PiecePosition)
    (pid tid : Nat) (P Q : Piece)
    (hfv : from_pos.valid) (htv : to_pos.valid)
    (hgf : dictGet from_pos.pos_num b.grid = some pid)
    (hgt : dictGet to_pos.pos_num b.grid = some tid)
    (hne : pid ≠ tid)
    (hP : b.heap[pid]? = some P) (hQ : b.heap[tid]? = some Q) :
    ∃ b', b.move_piece from_pos to_pos = .ok b' ∧
      b'.heap[tid]? = some (Piece.kill Q) ∧
      b'.heap[pid]? = some (Piece.move { P with position := to_pos }) ∧
      b'.get_piece_at to_pos = .ok (some (Piece.move { P with position := to_pos })) ∧
      b'.get_piece_at from_pos = .ok none := by
  have hkf := get_position_number_eq_of_valid from_pos hfv
  have hkt := get_position_number_eq_of_valid to_pos htv
  have hkne : from_pos.pos_num ≠ to_pos.pos_num := by
    intro h
    rw [h, hgt] at hgf
    exact hne (Option.some.inj hgf).symm
  have hmove := move_piece_capture_eq b from_pos to_pos _ _ pid tid hkf hkt hgf hgt
  refine ⟨_, hmove, ?_, ?_, ?_, ?_⟩
  · rw [heapModify_getElem, if_neg (fun hh => hne hh.symm),
      heapModify_getElem, if_pos rfl, hQ, Option.map_some']
  · rw [heapModify_getElem, if_pos rfl, heapModify_getElem, if_neg hne, hP,
      Option.map_some']
  · unfold Board.get_piece_at
    simp only [hkt]
    rw [dictGet_dictSet, if_pos rfl, Option.some_bind, heapModify_getElem,
      if_pos rfl, heapModify_getElem, if_neg hne, hP, Option.map_some']
  · unfold Board.get_piece_at
    simp only [hkf]
    rw [dictGet_dictSet, if_neg hkne, dictGet_dictDel, if_pos rfl,
      Option.none_bind]

/-- A two-piece board for the C1 witness: a White rook on a1 (heap object 0)
and a Black pawn on b1 (heap object 1). -/
def twoPieceBoard : Board :=
  { heap := [piece_creator .rook .white 1 1, piece_creator .pawn .black 1 2],
    grid := [(1, 0), (2, 1)] }

/-- Witness for C1: on `twoPieceBoard` the rook captures the pawn. -/
theorem move_piece_capture_updates_board_witness :
    ∃ b', twoPieceBoard.move_piece ⟨1, 1⟩ ⟨1, 2⟩ = .ok b' ∧
      b'.heap[1]? = some (Piece.kill (piece_creator .pawn .black 1 2)) ∧
      b'.heap[0]? = some (Piece.move
        { piece_creator .rook .white 1 1 with position := ⟨1, 2⟩ }) ∧
      b'.get_piece_at ⟨1, 2⟩ = .ok (some (Piece.move
        { piece_creator .rook .white 1 1 with position := ⟨1, 2⟩ })) ∧
      b'.get_piece_at ⟨1, 1⟩ = .ok none :=
  move_piece_capture_updates_board twoPieceBoard ⟨1, 1⟩ ⟨1, 2⟩ 0 1
    (piece_creator .rook .white 1 1) (piece_creator .pawn .black 1 2)
    (by decide) (by decide) (by decide) (by decide) (by decide) rfl rfl

/-- C6: `move_piece(from, to)` with an empty `from` (and valid coordinates)
fails with the no-piece-at-source `BoardError`.  The source raises before
touching any state, and the embedding mirrors this: the error branch is
taken before any grid or heap update is even constructed, so the board value
`b` is untouched — there is no partial mutation. -/
theorem move_piece_empty_source_error (b : Board) (from_pos to_pos : PiecePosition)
    (hfv : from_pos.valid) (htv : to_pos.valid)
    (h : dictGet from_pos.pos_num b.grid = none) :
    b.move_piece from_pos to_pos = .error (.noPieceAt from_pos) := by
  unfold Board.move_piece
  simp only [get_position_number_eq_of_valid from_pos hfv,
    get_position_number_eq_of_valid to_pos htv, h]

/-- Witness for C6: moving from the empty square a3 on the freshly set-up
board fails and nothing changes. -/
theorem move_piece_empty_source_error_witness :
    Board.setup_initial_positions.move_piece ⟨3, 1⟩ ⟨4, 1⟩ =
      .error (.noPieceAt ⟨3, 1⟩) :=
  move_piece_empty_source_error Board.setup_initial_positions ⟨3, 1⟩ ⟨4, 1⟩
    (by decide) (by decide) (by decide)

/-- The board state after the rook on a1 captures the pawn on b1 on
`twoPieceBoard`: the pawn object is killed on the heap, but the grid entry
for b1 now references the rook, so the grid no longer references the pawn. -/
def twoPieceBoardAfter : Board :=
  { heap := [{ kind := .rook, color := .white, position := ⟨1, 2⟩,
               is_die := false, has_moved := true },
             { kind := .pawn, color := .black, position := ⟨1, 2⟩,
               is_die := true, has_moved := false }],
    grid := [(2, 0)] }

/-- Counterexample to C2 as stated: on `twoPieceBoard` the move a1→b1
succeeds and captures the pawn, yet the killed pawn is *not* a member of
`all_pieces()` afterwards — `move_piece` overwrites the grid entry at `to`
with the mover, dropping the captured piece from `list(self._grid.values())`. -/
theorem captured_piece_dropped_from_all_pieces_cex :
    twoPieceBoard.move_piece ⟨1, 1⟩ ⟨1, 2⟩ = .ok twoPieceBoardAfter ∧
    twoPieceBoard.heap[1]? = some (piece_creator .pawn .black 1 2) ∧
    Piece.kill (piece_creator .pawn .black 1 2) ∉ twoPieceBoardAfter.all_pieces :=
  ⟨rfl, rfl, by decide⟩

/-- C2 amended: a capturing `move_piece(from, to)` still sets the captured
piece's flag via `kill()`, but it does *not* keep the piece in the board's
collection: the mover overwrites the only grid entry referencing the target,
so afterwards no grid entry references it and `all_pieces()` (the grid's
values) no longer returns it. -/
theorem capture_removes_target_from_collection (b : Board) (from_pos to_pos : PiecePosition)
    (pid tid : Nat) (Q : Piece)
    (hfv : from_pos.valid) (htv : to_pos.valid)
    (hgf : dictGet from_pos.pos_num b.grid = some pid)
    (hgt : dictGet to_pos.pos_num b.grid = some tid)
    (hne : pid ≠ tid)
    (hQ : b.heap[tid]? = some Q)
    (hnd : (b.grid.map Prod.fst).Nodup)
    (honce : ∀ e ∈ b.grid, e.2 = tid → e.1 = to_pos.pos_num) :
    ∃ b', b.move_piece from_pos to_pos = .ok b' ∧
      b'.heap[tid]? = some (Piece.kill Q) ∧
      (Piece.kill Q).is_die = true ∧
      (∀ e ∈ b'.grid, e.2 ≠ tid) ∧
      tid ∉ b'.grid.map Prod.snd := by
  have hkf := get_position_number_eq_of_valid from_pos hfv
  have hkt := get_position_number_eq_of_valid to_pos htv
  have hmove := move_piece_capture_eq b from_pos to_pos _ _ pid tid hkf hkt hgf hgt
  have hgrid : ∀ e ∈ dictSet to_pos.pos_num pid (dictDel from_pos.pos_num b.grid),
      e.2 ≠ tid := by
    intro e he hsnd
    rcases mem_dictSet _ _ _ _ (keys_dictDel_nodup _ _ hnd) he with h1 | h1
    · exact hne (by rw [h1] at hsnd; exact hsnd)
    · rcases mem_dictDel _ _ _ h1.1 with ⟨h2, h3⟩
      exact h1.2 (honce e h2 hsnd)
  refine ⟨_, hmove, ?_, rfl, hgrid, ?_⟩
  · rw [heapModify_getElem, if_neg (fun hh => hne hh.symm),
      heapModify_getElem, if_pos rfl, hQ, Option.map_some']
  · intro hmem
    rcases List.mem_map.mp hmem with ⟨e, he, hsnd⟩
    exact hgrid e he hsnd

/-- Witness for the amended C2 on `twoPieceBoard`. -/
theorem capture_removes_target_from_collection_witness :
    ∃ b', twoPieceBoard.move_piece ⟨1, 1⟩ ⟨1, 2⟩ = .ok b' ∧
      b'.heap[1]? = some (Piece.kill (piece_creator .pawn .black 1 2)) ∧
      (Piece.kill (piece_creator .pawn .black 1 2)).is_die = true ∧
      (∀ e ∈ b'.grid, e.2 ≠ 1) ∧
      1 ∉ b'.grid.map Prod.snd :=
  capture_removes_target_from_collection twoPieceBoard ⟨1, 1⟩ ⟨1, 2⟩ 0 1
    (piece_creator .pawn .black 1 2) (by decide) (by decide) (by decide)
    (by decide) (by decide) rfl (by decide) (by decide)

theorem wf_after_move (b : Board) (tp : PiecePosition) (kf kt : Int) (pid : Nat)
    (heap1 : List Piece) (hwf : b.wf) (htv : tp.valid) (hkt : tp.pos_num = kt)
    (hgf : dictGet kf b.grid = some pid)
    (hpos : ∀ j : Nat, Option.map Piece.position heap1[j]? =
      Option.map Piece.position b.heap[j]?) :
    Board.wf { heap := heapModify (fun pc => Piece.move { pc with position := tp }) pid heap1,
               grid := dictSet kt pid (dictDel kf b.grid) } := by
  obtain ⟨hnd, hentries⟩ := hwf
  obtain ⟨P0, hP0, hP0n⟩ := hentries _ (mem_of_dictGet _ _ _ hgf)
  constructor
  · exact keys_dictSet_nodup _ _ _ (keys_dictDel_nodup _ _ hnd)
  · intro e he
    rcases mem_dictSet _ _ _ _ (keys_dictDel_nodup _ _ hnd) he with h1 | ⟨h1, h2⟩
    · subst h1
      have hm : Option.map Piece.position heap1[pid]? = some P0.position := by
        rw [hpos pid, hP0, Option.map_some']
      rcases Option.map_eq_some'.mp hm with ⟨P1, hP1, _⟩
      refine ⟨Piece.move { P1 with position := tp }, ?_, ?_⟩
      · rw [heapModify_getElem, if_pos rfl, hP1, Option.map_some']
      · show (Piece.move { P1 with position := tp }).position.get_position_number =
          .ok (kt, pid).1
        have hpp : (Piece.move { P1 with position := tp }).position = tp := rfl
        rw [hpp, get_position_number_eq_of_valid tp htv, hkt]
    · rcases mem_dictDel _ _ _ h1 with ⟨h3, h4⟩
      obtain ⟨pc, hpc, hpcn⟩ := hentries _ h3
      have hneq : e.2 ≠ pid := by
        intro hh
        rw [hh, hP0] at hpc
        rw [(Option.some.inj hpc).symm, hP0n] at hpcn
        exact h4 (Except.ok.inj hpcn).symm
      have hm : Option.map Piece.position heap1[e.2]? = some pc.position := by
        rw [hpos e.2, hpc, Option.map_some']
      rcases Option.map_eq_some'.mp hm with ⟨pc', hpc', hpos'⟩
      refine ⟨pc', ?_, ?_⟩
      · rw [heapModify_getElem, if_neg hneq, hpc']
      · rw [hpos']
        exact hpcn

/-- C10: the key-position consistency invariant — unique grid keys, and every
grid entry with key `n` references an existing piece whose position converts
to exactly `n` — holds immediately after `setup_initial_positions()` and is
preserved by every successful `move_piece` call.  Consequently each board
slot holds at most one piece and each grid-referenced piece occupies exactly
the slot its position denotes. -/
theorem board_grid_invariant :
    Board.setup_initial_positions.wf ∧
    ∀ (b : Board) (fp tp : PiecePosition) (b' : Board),
      b.wf → b.move_piece fp tp = .ok b' → b'.wf := by
  constructor
  · exact wf_of_wfB _ (by decide)
  · intro b fp tp b' hwf hmove
    unfold Board.move_piece at hmove
    cases hkf : fp.get_position_number with
    | error e =>
      simp only [hkf] at hmove
      exact Except.noConfusion hmove
    | ok kf =>
      cases hkt : tp.get_position_number with
      | error e =>
        simp only [hkf, hkt] at hmove
        exact Except.noConfusion hmove
      | ok kt =>
        have htv := valid_of_get_position_number_ok tp kt hkt
        cases hgf : dictGet kf b.grid with
        | none =>
          simp only [hkf, hkt, hgf] at hmove
          exact Except.noConfusion hmove
        | some pid =>
          cases hgt : dictGet kt b.grid with
          | none =>
            simp only [hkf, hkt, hgf, hgt] at hmove
            rw [← Except.ok.inj hmove]
            exact wf_after_move b tp kf kt pid b.heap hwf htv.1 htv.2.symm hgf
              (fun _ => rfl)
          | some tid =>
            simp only [hkf, hkt, hgf, hgt] at hmove
            rw [← Except.ok.inj hmove]
            refine wf_after_move b tp kf kt pid (heapModify Piece.kill tid b.heap)
              hwf htv.1 htv.2.symm hgf ?_
            intro j
            rw [heapModify_getElem]
            by_cases h : j = tid
            · rw [if_pos h]
              cases b.heap[j]? <;> rfl
            · rw [if_neg h]

/-- The board after the pawn double-step e2→e4 from the initial position,
used to witness the C10 invariant preservation. -/
def demoMoved : Board :=
  match Board.setup_initial_positions.move_piece ⟨2, 5⟩ ⟨4, 5⟩ with
  | .ok b => b
  | .error _ => Board.setup_initial_positions

/-- Witness for C10: the invariant holds after e2→e4 from the set-up board,
by the preservation half applied to the setup half. -/
theorem board_grid_invariant_witness : demoMoved.wf :=
  board_grid_invariant.2 Board.setup_initial_positions ⟨2, 5⟩ ⟨4, 5⟩ demoMoved
    board_grid_invariant.1 rfl
